import Mathlib

/-!
Verification of the pytorch-sgns core against its specification.

The development shallowly embeds the three source files:

* `i2v_model.py` — the `Item2Vec` embedding bundler and the `SGNS` loss
  (`SGNS.forward`), modelled as pure functions over rational/real-valued
  tables; the random negative draws are threaded through as explicit index
  arguments, and the continuous-uniform fallback sampler is modelled by its
  distribution.
* `train_i2v.py` — the strict-decrease early-stopping loop
  (`train_early_stop`), modelled as a state machine over epochs.
* `train_ai2v.py` — the threshold-tolerant early-stopping loop, likewise.

Python float comparisons against `np.inf` (and the NaN corner case) are
modelled by the small inductive type `PFloat` with IEEE comparison
semantics over exact rationals.
-/

set_option autoImplicit false

/-- A Python/IEEE floating value as used by the training loops: an exact
rational payload, plus the two infinities and NaN.  Only the operations the
loops perform (`<`, `-`, `abs`) are modelled. -/
inductive PFloat where
  | nan : PFloat
  | inf : PFloat
  | ninf : PFloat
  | val : ℚ → PFloat
deriving DecidableEq, Repr

namespace PFloat

/-- IEEE `<`: every comparison involving NaN is false; `-inf < q < inf`. -/
def lt : PFloat → PFloat → Bool
  | nan, _ => false
  | _, nan => false
  | inf, _ => false
  | ninf, ninf => false
  | ninf, _ => true
  | val _, inf => true
  | val _, ninf => false
  | val a, val b => decide (a < b)

/-- IEEE subtraction restricted to the shapes the loops produce. -/
def sub : PFloat → PFloat → PFloat
  | nan, _ => nan
  | _, nan => nan
  | inf, inf => nan
  | inf, _ => inf
  | ninf, ninf => nan
  | ninf, _ => ninf
  | val _, inf => ninf
  | val _, ninf => inf
  | val a, val b => val (a - b)

/-- IEEE absolute value. -/
def abs : PFloat → PFloat
  | nan => nan
  | inf => inf
  | ninf => inf
  | val a => val (if a < 0 then -a else a)
end PFloat

/-- Observable state of `train_early_stop` in `train_i2v.py`:
`best_epoch`, `valid_losses[-1]`, `patience_count`, the list of epochs at
which `save_model` was called, the last epoch whose body ran, and whether
the `break` fired. -/
structure ESState where
  bestEpoch : ℕ
  prevLoss : PFloat
  patienceCount : ℕ
  savedEpochs : List ℕ
  epochsRun : ℕ
  stoppedEarly : Bool
deriving DecidableEq, Repr

/-- The epoch loop of `train_i2v.train_early_stop` (lines 108-131): one
iteration per remaining epoch; `validLoss e` is the validation loss the
epoch-`e` body computes.  `if valid_loss < valid_losses[-1]` resets the
patience counter, records the epoch as best and saves; otherwise the
patience counter is incremented and the loop breaks when it reaches the
configured patience. -/
def trainEarlyStopLoop (patience : ℕ) (validLoss : ℕ → PFloat) :
    ℕ → ℕ → ESState → ESState
  | 0, _, s => s
  | n + 1, epoch, s =>
    let loss := validLoss epoch
    if PFloat.lt loss s.prevLoss then
      trainEarlyStopLoop patience validLoss n (epoch + 1)
        { s with patienceCount := 0, bestEpoch := epoch,
                 savedEpochs := s.savedEpochs ++ [epoch],
                 prevLoss := loss, epochsRun := epoch }
    else
      let pc := s.patienceCount + 1
      if pc = patience then
        { s with patienceCount := pc, epochsRun := epoch, stoppedEarly := true }
      else
        trainEarlyStopLoop patience validLoss n (epoch + 1)
          { s with patienceCount := pc, prevLoss := loss, epochsRun := epoch }

/-- `train_i2v.train_early_stop`: `best_epoch = max_epoch + 1`,
`valid_losses = [np.inf]`, `patience_count = 0`, then the epoch loop over
`range(1, max_epoch + 1)`. -/
def train_early_stop (maxEpoch patience : ℕ) (validLoss : ℕ → PFloat) : ESState :=
  trainEarlyStopLoop patience validLoss maxEpoch 1
    { bestEpoch := maxEpoch + 1, prevLoss := .inf, patienceCount := 0,
      savedEpochs := [], epochsRun := 0, stoppedEarly := false }

/-- Observable state of `train_early_stop` in `train_ai2v.py`, which also
tracks `best_valid_loss`. -/
structure AiESState where
  bestEpoch : ℕ
  bestValidLoss : PFloat
  prevLoss : PFloat
  patienceCount : ℕ
  savedEpochs : List ℕ
  epochsRun : ℕ
  stoppedEarly : Bool
deriving DecidableEq, Repr

/-- The epoch loop of `train_ai2v.train_early_stop` (lines 80-106):
`diff_loss = abs(valid_loss - valid_losses[-1])`; when
`diff_loss > conv_thresh` the patience counter is reset and the model is
saved only if additionally `valid_loss < best_valid_loss`; otherwise the
patience counter is incremented, breaking at the configured patience. -/
def aiTrainEarlyStopLoop (convThresh : PFloat) (patience : ℕ)
    (validLoss : ℕ → PFloat) : ℕ → ℕ → AiESState → AiESState
  | 0, _, s => s
  | n + 1, epoch, s =>
    let loss := validLoss epoch
    let diffLoss := PFloat.abs (PFloat.sub loss s.prevLoss)
    if PFloat.lt convThresh diffLoss then
      if PFloat.lt loss s.bestValidLoss then
        aiTrainEarlyStopLoop convThresh patience validLoss n (epoch + 1)
          { s with patienceCount := 0, bestValidLoss := loss, bestEpoch := epoch,
                   savedEpochs := s.savedEpochs ++ [epoch],
                   prevLoss := loss, epochsRun := epoch }
      else
        aiTrainEarlyStopLoop convThresh patience validLoss n (epoch + 1)
          { s with patienceCount := 0, prevLoss := loss, epochsRun := epoch }
    else
      let pc := s.patienceCount + 1
      if pc = patience then
        { s with patienceCount := pc, epochsRun := epoch, stoppedEarly := true }
      else
        aiTrainEarlyStopLoop convThresh patience validLoss n (epoch + 1)
          { s with patienceCount := pc, prevLoss := loss, epochsRun := epoch }

/-- `train_ai2v.train_early_stop`: additionally initialises
`best_valid_loss = np.inf`. -/
def ai_train_early_stop (convThresh : PFloat) (maxEpoch patience : ℕ)
    (validLoss : ℕ → PFloat) : AiESState :=
  aiTrainEarlyStopLoop convThresh patience validLoss maxEpoch 1
    { bestEpoch := maxEpoch + 1, bestValidLoss := .inf, prevLoss := .inf,
      patienceCount := 0, savedEpochs := [], epochsRun := 0,
      stoppedEarly := false }

/-- `torch.sigmoid` over the reals. -/
noncomputable def sigmoid (x : ℝ) : ℝ := 1 / (1 + Real.exp (-x))

/-- Dot product of two length-`E` vectors: one batch entry of
`t.bmm(m, v.unsqueeze(2)).squeeze(dim=-1)`. -/
noncomputable def dotR (E : ℕ) (u v : ℕ → ℝ) : ℝ :=
  ∑ e in Finset.range E, u e * v e

/-- `SGNS.forward` from `i2v_model.py` (lines 65-88), with the negative
draws threaded through as the explicit index matrix `nitems` (shape
`(B, C*K)`, `K = n_negs`) and tensors as index functions:

* `ivectors = embedding.forward_i(iitem).unsqueeze(2)`: row `iitem b` of
  the input table, as the second `bmm` operand;
* `ovectors = embedding.forward_o(oitems)`, `nvectors =
  embedding.forward_o(nitems).neg()`;
* `oloss = t.bmm(ovectors, ivectors).squeeze(-1).sigmoid().log()`: entry
  `(b, c)` is `log σ(⟨ovectors b c, ivectors b⟩)`;
* `nloss = t.bmm(nvectors, ivectors).squeeze(-1).sigmoid().log()
  .view(-1, C, K).sum(2)`: the row-major `view` puts flat column
  `c*K + k` at `(b, c, k)`, so entry `(b, c)` sums the flat entries
  `c*K + k` over `k < K`;
* `loss = (oloss + nloss).sum(1).mean()`, and the result is `-loss`.

There is no padding-mask argument: the Python signature is
`forward(self, iitem, oitems)`. -/
noncomputable def SGNS.forward (E C K : ℕ) (itable otable : ℕ → ℕ → ℝ)
    (B : ℕ) (iitem : ℕ → ℕ) (oitems nitems : ℕ → ℕ → ℕ) : ℝ :=
  let ivectors : ℕ → ℕ → ℝ := fun b => itable (iitem b)
  let ovectors : ℕ → ℕ → ℕ → ℝ := fun b c => otable (oitems b c)
  let nvectors : ℕ → ℕ → ℕ → ℝ := fun b j e => -(otable (nitems b j) e)
  let oloss : ℕ → ℕ → ℝ := fun b c =>
    Real.log (sigmoid (dotR E (ovectors b c) (ivectors b)))
  let nloss : ℕ → ℕ → ℝ := fun b c =>
    ∑ k in Finset.range K,
      Real.log (sigmoid (dotR E (nvectors b (c * K + k)) (ivectors b)))
  let loss : ℕ → ℝ := fun b => ∑ c in Finset.range C, (oloss b c + nloss b c);
  -((∑ b in Finset.range B, loss b) / B)

/-- The SGNS loss as the specification words it (§4.3 steps 4-8): the
negation of the mean over the batch of the sum over context slots of
`log σ(⟨target, context⟩) + ∑_{negatives} log σ(-⟨target, negative⟩)`. -/
noncomputable def SGNS.specLoss (E C K : ℕ) (itable otable : ℕ → ℕ → ℝ)
    (B : ℕ) (iitem : ℕ → ℕ) (oitems nitems : ℕ → ℕ → ℕ) : ℝ :=
  -((∑ b in Finset.range B, ∑ c in Finset.range C,
      (Real.log (sigmoid (dotR E (itable (iitem b)) (otable (oitems b c)))) +
        ∑ k in Finset.range K,
          Real.log (sigmoid
            (-(dotR E (itable (iitem b)) (otable (nitems b (c * K + k)))))))) / B)

theorem dotR_comm (E : ℕ) (u v : ℕ → ℝ) : dotR E u v = dotR E v u :=
  Finset.sum_congr rfl fun _ _ => mul_comm _ _

theorem dotR_neg_left (E : ℕ) (u v : ℕ → ℝ) :
    dotR E (fun e => -(u e)) v = -(dotR E u v) := by
  simp [dotR, neg_mul]

theorem sigmoid_zero : sigmoid 0 = 1 / 2 := by
  simp [sigmoid, Real.exp_zero]
  norm_num

/-- The literal validation-loss sequence `[10, 9, 9, 9, 9]` for epochs 1-5. -/
def traceC2 : ℕ → PFloat := fun e => if e = 1 then .val 10 else .val 9

/-- Claim C2: on the validation-loss sequence `[10, 9, 9, 9, 9]` with
patience 3 under the strict-decrease policy, the loop halts at epoch 5 via
the `break` (the patience counter having reached 3 after the improvement
at epoch 2), and the best-checkpoint epoch returned is 2 (checkpoints were
saved at epochs 1 and 2 only). -/
theorem i2v_early_stop_literal_trace :
    (train_early_stop 5 3 traceC2).epochsRun = 5 ∧
    (train_early_stop 5 3 traceC2).stoppedEarly = true ∧
    (train_early_stop 5 3 traceC2).patienceCount = 3 ∧
    (train_early_stop 5 3 traceC2).bestEpoch = 2 ∧
    (train_early_stop 5 3 traceC2).savedEpochs = [1, 2] := by
  decide

/-- The validation-loss sequence `[5, 10, 7]` for epochs 1-3: epoch 3
beats the immediately preceding epoch (7 < 10) but not the overall best
(epoch 1, loss 5). -/
def traceC4 : ℕ → PFloat :=
  fun e => if e = 1 then .val 5 else if e = 2 then .val 10 else .val 7

/-- Claim C4 is false on the code: on the loss sequence `[5, 10, 7]`
(patience 5), epoch 3 beats the previous epoch's loss 10 but not the
overall best 5, yet `train_i2v.train_early_stop` still calls `save_model`
at epoch 3 and overwrites `best_epoch` with 3 — the improvement test at
line 120 compares only against `valid_losses[-1]`, never against an
overall best. -/
theorem i2v_save_not_best_counterexample :
    (train_early_stop 3 5 traceC4).savedEpochs = [1, 3] ∧
    (train_early_stop 3 5 traceC4).bestEpoch = 3 ∧
    traceC4 1 = .val 5 ∧ traceC4 3 = .val 7 ∧ PFloat.lt (.val 5) (.val 7) = true := by
  decide

/-- Claim C4 amended: in `train_i2v.train_early_stop` a checkpoint is
persisted (and `best_epoch` overwritten) on every epoch whose validation
loss strictly beats the immediately preceding epoch's loss, regardless of
the overall best: for any losses `a < c < b` at epochs 1, 2, 3, the loop
saves at epochs 1 and 3 and returns `best_epoch = 3`, even though epoch
1's loss `a` is the overall minimum. -/
theorem i2v_save_beats_previous_only (a b c : ℚ) (patience : ℕ)
    (hac : a < c) (hcb : c < b) (hp : 2 ≤ patience) :
    (train_early_stop 3 patience
        (fun e => if e = 1 then .val a else if e = 2 then .val b else .val c)).savedEpochs
      = [1, 3] ∧
    (train_early_stop 3 patience
        (fun e => if e = 1 then .val a else if e = 2 then .val b else .val c)).bestEpoch
      = 3 := by
  have hba : ¬ b < a := by linarith
  have hone : (1 : ℕ) ≠ patience := by omega
  simp [train_early_stop, trainEarlyStopLoop, PFloat.lt, hba, hcb, hone]

/-- Witness for `i2v_save_beats_previous_only` at `a = 1`, `b = 4`,
`c = 2`, patience 2. -/
theorem i2v_save_beats_previous_only_witness :
    (train_early_stop 3 2
        (fun e => if e = 1 then .val 1 else if e = 2 then .val 4 else .val 2)).savedEpochs
      = [1, 3] ∧
    (train_early_stop 3 2
        (fun e => if e = 1 then .val 1 else if e = 2 then .val 4 else .val 2)).bestEpoch
      = 3 :=
  i2v_save_beats_previous_only 1 4 2 2 (by norm_num) (by norm_num) (by norm_num)

/-- The validation-loss sequence `[5, 10]` for epochs 1-2: epoch 2 changed
by `|10 - 5| = 5 > conv_thresh = 1` but got strictly worse. -/
def traceC6 : ℕ → PFloat := fun e => if e = 1 then .val 5 else .val 10

/-- Claim C6 is false on the code: with `conv_thresh = 1` and losses
`[5, 10]`, epoch 2's loss changed by more than the threshold but got
worse; the claim says this counts as stagnation and increments the
patience counter (to 1), but `train_ai2v.train_early_stop` resets the
patience counter to 0 whenever `diff_loss > conv_thresh`, regardless of
the best-so-far test (which only gates saving). -/
theorem ai2v_patience_reset_counterexample :
    (ai_train_early_stop (.val 1) 2 3 traceC6).patienceCount = 0 ∧
    (ai_train_early_stop (.val 1) 2 3 traceC6).savedEpochs = [1] ∧
    (ai_train_early_stop (.val 1) 2 3 traceC6).stoppedEarly = false := by
  norm_num [ai_train_early_stop, aiTrainEarlyStopLoop, PFloat.lt, PFloat.sub,
    PFloat.abs, traceC6]

/-- Claim C6 amended: in `train_ai2v.train_early_stop` the patience
counter is reset to 0 whenever `|current - previous| > epsilon`, whether
or not the current loss is the best so far; the best-so-far condition
gates only checkpointing. For any `a < b` with `|b - a| > th`, the
two-epoch trace `[a, b]` ends with patience 0 and only epoch 1 saved. -/
theorem ai2v_patience_resets_on_diff (a b th : ℚ) (patience : ℕ)
    (hdiff : th < |b - a|) (hworse : a < b) :
    (ai_train_early_stop (.val th) 2 patience
        (fun e => if e = 1 then .val a else .val b)).patienceCount = 0 ∧
    (ai_train_early_stop (.val th) 2 patience
        (fun e => if e = 1 then .val a else .val b)).savedEpochs = [1] ∧
    (ai_train_early_stop (.val th) 2 patience
        (fun e => if e = 1 then .val a else .val b)).bestEpoch = 1 ∧
    (ai_train_early_stop (.val th) 2 patience
        (fun e => if e = 1 then .val a else .val b)).bestValidLoss = .val a := by
  have hba : ¬ b < a := by linarith
  have hd2 : th < b - a := by
    rwa [abs_of_pos (by linarith)] at hdiff
  have hnonneg : ¬ b - a < 0 := by linarith
  simp [ai_train_early_stop, aiTrainEarlyStopLoop, PFloat.lt, PFloat.sub,
    PFloat.abs, hd2, hba, hnonneg]

/-- Witness for `ai2v_patience_resets_on_diff` at `a = 2`, `b = 7`,
`th = 3`, patience 4. -/
theorem ai2v_patience_resets_on_diff_witness :
    (ai_train_early_stop (.val 3) 2 4
        (fun e => if e = 1 then .val 2 else .val 7)).patienceCount = 0 ∧
    (ai_train_early_stop (.val 3) 2 4
        (fun e => if e = 1 then .val 2 else .val 7)).savedEpochs = [1] ∧
    (ai_train_early_stop (.val 3) 2 4
        (fun e => if e = 1 then .val 2 else .val 7)).bestEpoch = 1 ∧
    (ai_train_early_stop (.val 3) 2 4
        (fun e => if e = 1 then .val 2 else .val 7)).bestValidLoss = .val 2 :=
  ai2v_patience_resets_on_diff 2 7 3 4 (by norm_num) (by norm_num)

/-- Helper for C10: if no evaluated epoch's loss is a strict decrease from
the loss it is compared against, the loop never saves and never changes
`best_epoch`. -/
theorem trainEarlyStopLoop_no_improve (patience : ℕ) (validLoss : ℕ → PFloat)
    (n : ℕ) :
    ∀ (epoch : ℕ) (s : ESState),
      (∀ i, epoch ≤ i → i < epoch + n →
        PFloat.lt (validLoss i)
          (if i = epoch then s.prevLoss else validLoss (i - 1)) = false) →
      (trainEarlyStopLoop patience validLoss n epoch s).savedEpochs = s.savedEpochs ∧
      (trainEarlyStopLoop patience validLoss n epoch s).bestEpoch = s.bestEpoch := by
  induction n with
  | zero => intro epoch s _; exact ⟨rfl, rfl⟩
  | succ n ih =>
    intro epoch s h
    have h0 : PFloat.lt (validLoss epoch) s.prevLoss = false := by
      have := h epoch le_rfl (by omega)
      simpa using this
    have hnext : ∀ i, epoch + 1 ≤ i → i < (epoch + 1) + n →
        PFloat.lt (validLoss i)
          (if i = epoch + 1 then validLoss epoch else validLoss (i - 1)) = false := by
      intro i hi1 hi2
      have hne : i ≠ epoch := by omega
      have := h i (by omega) (by omega)
      rw [if_neg hne] at this
      by_cases hie : i = epoch + 1
      · subst hie
        simpa using this
      · rw [if_neg hie]
        exact this
    simp only [trainEarlyStopLoop, h0]
    by_cases hpc : s.patienceCount + 1 = patience
    · simp [hpc]
    · simpa [hpc] using ih (epoch + 1)
        { s with patienceCount := s.patienceCount + 1,
                 prevLoss := validLoss epoch, epochsRun := epoch } hnext

/-- Claim C10: if no epoch's validation loss is ever a strict decrease
from the previous epoch's (with `np.inf` as epoch 1's predecessor) — for
example when every loss is NaN, which compares false against everything —
then `train_i2v.train_early_stop` never persists a checkpoint and returns
`best_epoch = max_epoch + 1`, one past any epoch actually run. -/
theorem i2v_no_improvement_no_checkpoint (maxEpoch patience : ℕ)
    (validLoss : ℕ → PFloat)
    (h1 : PFloat.lt (validLoss 1) .inf = false)
    (h2 : ∀ e, 2 ≤ e → e ≤ maxEpoch →
      PFloat.lt (validLoss e) (validLoss (e - 1)) = false) :
    (train_early_stop maxEpoch patience validLoss).savedEpochs = [] ∧
    (train_early_stop maxEpoch patience validLoss).bestEpoch = maxEpoch + 1 := by
  have hh : ∀ i, 1 ≤ i → i < 1 + maxEpoch →
      PFloat.lt (validLoss i)
        (if i = 1 then PFloat.inf else validLoss (i - 1)) = false := by
    intro i hi1 hi2
    by_cases hone : i = 1
    · subst hone; simpa using h1
    · rw [if_neg hone]
      exact h2 i (by omega) (by omega)
  exact trainEarlyStopLoop_no_improve patience validLoss maxEpoch 1 _ hh

/-- Witness for `i2v_no_improvement_no_checkpoint`: an all-NaN loss
sequence with `max_epoch = 3`, patience 2. -/
theorem i2v_no_improvement_no_checkpoint_witness :
    (train_early_stop 3 2 (fun _ => PFloat.nan)).savedEpochs = [] ∧
    (train_early_stop 3 2 (fun _ => PFloat.nan)).bestEpoch = 4 :=
  i2v_no_improvement_no_checkpoint 3 2 (fun _ => PFloat.nan) rfl
    (fun _ _ _ => rfl)

/-- Claim C7: for every batch with all indices in range, `SGNS.forward`
equals the negation of the mean over batch rows of the sum over context
slots of `log σ(⟨target, context⟩)` plus the sum over the `n_negs`
negatives of `log σ(-⟨target, negative⟩)` — the code computing the
negative term by negating the negatives' vectors and summing the reshaped
`(B, C, n_negs)` scores over the last axis. -/
theorem sgns_loss_formula (E C K B V : ℕ) (itable otable : ℕ → ℕ → ℝ)
    (iitem : ℕ → ℕ) (oitems nitems : ℕ → ℕ → ℕ)
    (hi : ∀ b, b < B → iitem b < V)
    (ho : ∀ b c, b < B → c < C → oitems b c < V)
    (hn : ∀ b j, b < B → j < C * K → nitems b j < V) :
    SGNS.forward E C K itable otable B iitem oitems nitems =
      SGNS.specLoss E C K itable otable B iitem oitems nitems := by
  simp only [SGNS.forward, SGNS.specLoss]
  congr 2
  refine Finset.sum_congr rfl fun b _ => Finset.sum_congr rfl fun c _ => ?_
  rw [dotR_comm]
  congr 1
  refine Finset.sum_congr rfl fun k _ => ?_
  rw [dotR_neg_left, dotR_comm]

/-- Witness for `sgns_loss_formula`: vocabulary `{0}`, all-zero tables,
`B = C = K = E = 1`. -/
theorem sgns_loss_formula_witness :
    SGNS.forward 1 1 1 (fun _ _ => 0) (fun _ _ => 0) 1 (fun _ => 0)
        (fun _ _ => 0) (fun _ _ => 0) =
      SGNS.specLoss 1 1 1 (fun _ _ => 0) (fun _ _ => 0) 1 (fun _ => 0)
        (fun _ _ => 0) (fun _ _ => 0) :=
  sgns_loss_formula 1 1 1 1 1 _ _ _ _ _ (fun _ _ => Nat.one_pos)
    (fun _ _ _ _ => Nat.one_pos) (fun _ _ _ _ => Nat.one_pos)

/-- Claim C1 is false on the code: `SGNS.forward` in `i2v_model.py` takes
no padding mask, and padded context slots do contribute loss.  With the
all-zero tables (so the `pad_idx = 0` row is the zero vector), target
`[1]`, one true context item `[[1]]` versus the same batch with one extra
all-pad context column `[[1, 0]]` (negative draws all `0` in both), the
two losses differ: the extra pad column adds `2 log 2` to the loss. -/
theorem sgns_pad_invariance_fails :
    SGNS.forward 1 2 1 (fun _ _ => 0) (fun _ _ => 0) 1 (fun _ => 1)
        (fun _ c => if c = 0 then 1 else 0) (fun _ _ => 0) ≠
      SGNS.forward 1 1 1 (fun _ _ => 0) (fun _ _ => 0) 1 (fun _ => 1)
        (fun _ _ => 1) (fun _ _ => 0) := by
  have hhalf : Real.log ((1 : ℝ) / 2) < 0 :=
    Real.log_neg (by norm_num) (by norm_num)
  intro heq
  simp only [SGNS.forward, dotR, sigmoid] at heq
  norm_num [Finset.sum_range_succ, Real.exp_zero] at heq
  linarith

/-- Claim C1 amended: the `i2v_model.py` SGNS loss accepts no padding
mask; a batch extended by one all-`pad_idx` context column (with the pad
row of the output table zero, and the negative draws of the original
blocks unchanged) does not keep the loss unchanged — it shifts it by
exactly the pad column's contribution, `-(1/B) ∑_b (log(1/2) +
∑_k log σ(-⟨target_b, negative_{b,k}⟩))`. -/
theorem sgns_pad_column_shift (E C K B padIdx : ℕ)
    (itable otable : ℕ → ℕ → ℝ) (iitem : ℕ → ℕ)
    (oitems oitems2 nitems nitems2 : ℕ → ℕ → ℕ)
    (hpad : ∀ e, otable padIdx e = 0)
    (hO : ∀ b c, c < C → oitems2 b c = oitems b c)
    (hOpad : ∀ b, oitems2 b C = padIdx)
    (hN : ∀ b j, j < C * K → nitems2 b j = nitems b j) :
    SGNS.forward E (C + 1) K itable otable B iitem oitems2 nitems2 =
      SGNS.forward E C K itable otable B iitem oitems nitems
        - (∑ b in Finset.range B, (Real.log (1 / 2)
            + ∑ k in Finset.range K,
                Real.log (sigmoid (-(dotR E (itable (iitem b))
                  (otable (nitems2 b (C * K + k)))))))) / B := by
  have hrow : ∀ b, ∑ c in Finset.range (C + 1),
      (Real.log (sigmoid (dotR E (otable (oitems2 b c)) (itable (iitem b)))) +
        ∑ k in Finset.range K,
          Real.log (sigmoid (dotR E (fun e => -(otable (nitems2 b (c * K + k)) e))
            (itable (iitem b))))) =
      (∑ c in Finset.range C,
        (Real.log (sigmoid (dotR E (otable (oitems b c)) (itable (iitem b)))) +
          ∑ k in Finset.range K,
            Real.log (sigmoid (dotR E (fun e => -(otable (nitems b (c * K + k)) e))
              (itable (iitem b)))))) +
      (Real.log (1 / 2) + ∑ k in Finset.range K,
        Real.log (sigmoid (-(dotR E (itable (iitem b))
          (otable (nitems2 b (C * K + k))))))) := by
    intro b
    rw [Finset.sum_range_succ]
    congr 1
    · refine Finset.sum_congr rfl fun c hc => ?_
      rw [Finset.mem_range] at hc
      rw [hO b c hc]
      congr 1
      refine Finset.sum_congr rfl fun k hk => ?_
      rw [Finset.mem_range] at hk
      have hjk : c * K + k < C * K := by
        calc c * K + k < c * K + K := by omega
        _ = (c + 1) * K := by ring
        _ ≤ C * K := Nat.mul_le_mul_right K (by omega)
      rw [hN b (c * K + k) hjk]
    · rw [hOpad b]
      have hzero : dotR E (otable padIdx) (itable (iitem b)) = 0 := by
        simp [dotR, hpad]
      rw [hzero, sigmoid_zero]
      congr 1
      refine Finset.sum_congr rfl fun k _ => ?_
      rw [dotR_neg_left, dotR_comm]
  simp only [SGNS.forward]
  rw [Finset.sum_congr rfl fun b _ => hrow b, Finset.sum_add_distrib]
  ring

/-- Witness for `sgns_pad_column_shift` at the concrete batch of
`sgns_pad_invariance_fails` shape: all-zero tables, `pad_idx = 0`,
`B = C = K = E = 1`. -/
theorem sgns_pad_column_shift_witness :
    SGNS.forward 1 2 1 (fun _ _ => 0) (fun _ _ => 0) 1 (fun _ => 1)
        (fun _ c => if c = 0 then 1 else 0) (fun _ _ => 0) =
      SGNS.forward 1 1 1 (fun _ _ => 0) (fun _ _ => 0) 1 (fun _ => 1)
        (fun _ _ => 1) (fun _ _ => 0)
        - (∑ b in Finset.range 1, (Real.log (1 / 2)
            + ∑ k in Finset.range 1,
                Real.log (sigmoid (-(dotR 1 (fun _ => 0) (fun _ => 0)))))) / 1 := by
  have h := sgns_pad_column_shift 1 1 1 1 0 (fun _ _ => 0) (fun _ _ => 0)
    (fun _ => 1) (fun _ _ => 1) (fun _ c => if c = 0 then 1 else 0)
    (fun _ _ => 0) (fun _ _ => 0) (fun _ => rfl)
    (fun _ c hc => by
      have hc0 : c = 0 := by omega
      subst hc0; rfl)
    (fun _ => rfl) (fun _ _ _ => rfl)
  norm_num at h ⊢
  convert h using 2

/-- A tensor shape, outermost dimension first. -/
abbrev Shape := List ℕ

/-- Number of elements of a shape. -/
def numel (s : Shape) : ℕ := s.foldr (fun a b => a * b) 1

/-- `t.bmm`: both operands must be 3-d with equal batch and inner
dimensions, else the tensor library raises. -/
def bmmShape : Shape → Shape → Except String Shape
  | [b1, n, m1], [b2, m2, p] =>
    if b1 = b2 ∧ m1 = m2 then .ok [b1, n, p]
    else .error "bmm: dimension mismatch"
  | _, _ => .error "bmm: expects 3-d tensors"

/-- `.unsqueeze(d)`: insert a dimension of size 1 at position `d`. -/
def unsqueezeShape (s : Shape) (d : ℕ) : Shape := s.take d ++ 1 :: s.drop d

/-- `.squeeze(dim=-1)`: drop the last dimension when it is 1. -/
def squeezeLastShape (s : Shape) : Shape :=
  if s.getLast? = some 1 then s.dropLast else s

/-- `.view(-1, d1, d2)`: infer the leading dimension; raises when the
element count is not divisible (or the fixed dimensions are zero, making
the inference ambiguous). -/
def viewShape (s : Shape) (d1 d2 : ℕ) : Except String Shape :=
  if 0 < d1 * d2 ∧ d1 * d2 ∣ numel s then .ok [numel s / (d1 * d2), d1, d2]
  else .error "view: shape incompatible"

/-- `.sum(d)`: remove dimension `d`. -/
def sumDimShape (s : Shape) (d : ℕ) : Except String Shape :=
  if d < s.length then .ok (s.take d ++ s.drop (d + 1))
  else .error "sum: dim out of range"

/-- Elementwise `+` of the two `(B, C)` loss tensors.  (General
broadcasting is irrelevant here: the preceding asserts already force the
two shapes to agree.) -/
def addShape (s1 s2 : Shape) : Except String Shape :=
  if s1 = s2 then .ok s1 else .error "add: shape mismatch"

/-- A Python `assert cond, msg`: loud failure, never a silent pass. -/
def assertCheck (cond : Bool) (msg : String) : Except String Unit :=
  if cond then .ok () else .error msg

/-- `shape[0]` of a tensor. -/
def dim0 : Shape → Except String ℕ
  | d :: _ => .ok d
  | [] => .error "shape[0]: rank 0"

/-- The shape trace of `SGNS.forward` (i2v_model.py lines 65-88): every
tensor of the pipeline by its shape, with the two Python `assert`s of
lines 81 and 85 as explicit checks.  `E` is the embedding size, `K` is
`n_negs`; `ishape`/`oshape` are the shapes of `iitem`/`oitems`. -/
def SGNS.forwardShapes (E K : ℕ) (ishape oshape : Shape) :
    Except String Shape := do
  let batch_size ← dim0 ishape
  let context_size ← match oshape with
    | _ :: c :: _ => Except.ok c
    | _ => Except.error "oitems.size()[1]: rank < 2"
  let nshape : Shape := [batch_size, context_size * K]
  let ivectors := unsqueezeShape (ishape ++ [E]) 2
  let ovectors := oshape ++ [E]
  let nvectors := nshape ++ [E]
  let olossRaw ← bmmShape ovectors ivectors
  let oloss := squeezeLastShape olossRaw
  let od ← dim0 oloss
  let _ ← assertCheck (od == batch_size)
    "oloss vector shape is different than batch size"
  let nlossRaw ← bmmShape nvectors ivectors
  let nlossView ← viewShape (squeezeLastShape nlossRaw) context_size K
  let nloss ← sumDimShape nlossView 2
  let nd ← dim0 nloss
  let _ ← assertCheck (nd == batch_size)
    "nloss vector shape is different than batch size"
  let lossSum ← addShape oloss nloss
  let lossRed ← sumDimShape lossSum 1
  let _mean := lossRed
  Except.ok ([] : Shape)

theorem except_bind_ok {ε α β : Type} (a : α) (f : α → Except ε β) :
    (Except.ok a >>= f) = f a := rfl

theorem except_bind_error {ε α β : Type} (e : ε) (f : α → Except ε β) :
    ((Except.error e : Except ε α) >>= f) = Except.error e := rfl

/-- Claim C8: for a 1-d target batch of size `B` and a 2-d context batch
of `B2` rows (`C` columns, `C * n_negs > 0`), the checked loss pipeline
reaches the final reduction successfully exactly when the leading
dimensions agree (`B2 = B`); any mismatch is surfaced as an error — never
a silent broadcast or truncation past the asserts. -/
theorem sgns_shape_check (E K B B2 C : ℕ) (hCK : 0 < C * K) :
    (SGNS.forwardShapes E K [B] [B2, C] = .ok ([] : Shape)) ↔ B2 = B := by
  constructor
  · intro hok
    by_contra hne
    simp [SGNS.forwardShapes, dim0, bmmShape, unsqueezeShape, hne,
      except_bind_ok, except_bind_error] at hok
  · intro hEq
    rw [hEq]
    have hC : 0 < C := by
      rcases Nat.eq_zero_or_pos C with h | h
      · subst h; simp at hCK
      · exact h
    have hK : 0 < K := by
      rcases Nat.eq_zero_or_pos K with h | h
      · subst h; simp at hCK
      · exact h
    have hdvd : C * K ∣ B * (C * K) := dvd_mul_left (C * K) B
    simp [SGNS.forwardShapes, dim0, bmmShape, unsqueezeShape, squeezeLastShape,
      viewShape, sumDimShape, addShape, assertCheck, numel, hC, hK, hdvd,
      except_bind_ok, except_bind_error, Nat.mul_div_cancel B hCK]

/-- Witness for `sgns_shape_check`: `E = 5`, `n_negs = 4`, matched batch
size 2, context width 3. -/
theorem sgns_shape_check_witness :
    0 < 3 * 4 ∧
    ((SGNS.forwardShapes 5 4 [2] [2, 3] = .ok ([] : Shape)) ↔ 2 = 2) :=
  ⟨by norm_num, sgns_shape_check 5 4 2 2 3 (by norm_num)⟩

/-- The embedding bundler of `i2v_model.py` (`Item2Vec.__init__`, lines
25-34): a vocabulary size, an embedding size and the two weight tables,
as row-indexed rational vectors. -/
structure Item2Vec where
  vocab_size : ℕ
  embedding_size : ℕ
  ivectors : ℕ → ℕ → ℚ
  ovectors : ℕ → ℕ → ℚ

/-- One `nn.Embedding` row lookup, per the tensor library's documented
contract (spec §4.1/§7): an index in `[0, vocab_size)` selects that row of
the table; any other index raises `IndexError` — it is never clamped. -/
def embeddingLookup (vocabSize embeddingSize : ℕ) (table : ℕ → ℕ → ℚ)
    (idx : ℤ) : Except String (List ℚ) :=
  if 0 ≤ idx ∧ idx < (vocabSize : ℤ) then
    .ok ((List.range embeddingSize).map (table idx.toNat))
  else .error "index out of range in self"

/-- Lookup of every index of a tensor, first bad index aborting the
whole lookup (the elementwise semantics of a batched `nn.Embedding`
call). -/
def lookupAll (V E : ℕ) (table : ℕ → ℕ → ℚ) :
    List ℤ → Except String (List (List ℚ))
  | [] => .ok []
  | a :: l => do
    let r ← embeddingLookup V E table a
    let rs ← lookupAll V E table l
    Except.ok (r :: rs)

/-- `Item2Vec.forward_i` (lines 39-43): `data.long()` then a lookup of
every index in the input table (the `.cuda()` device move does not change
values). -/
def Item2Vec.forward_i (m : Item2Vec) (data : List ℤ) :
    Except String (List (List ℚ)) :=
  lookupAll m.vocab_size m.embedding_size m.ivectors data

/-- `Item2Vec.forward_o` (lines 45-49): the same against the output
table. -/
def Item2Vec.forward_o (m : Item2Vec) (data : List ℤ) :
    Except String (List (List ℚ)) :=
  lookupAll m.vocab_size m.embedding_size m.ovectors data

/-- `Item2Vec.forward` (lines 36-37) is `forward_i`. -/
def Item2Vec.forward (m : Item2Vec) (data : List ℤ) :
    Except String (List (List ℚ)) :=
  m.forward_i data

theorem lookupAll_contract (V E : ℕ) (table : ℕ → ℕ → ℚ)
    (data : List ℤ) :
    lookupAll V E table data =
      (if data.all (fun i => decide (0 ≤ i) && decide (i < (V : ℤ))) then
        .ok (data.map (fun i => (List.range E).map (table i.toNat)))
      else .error "index out of range in self") := by
  induction data with
  | nil => rfl
  | cons a l ih =>
    by_cases ha : 0 ≤ a ∧ a < (V : ℤ)
    · have h1 : (decide (0 ≤ a) && decide (a < (V : ℤ))) = true := by
        simp [ha.1, ha.2]
      by_cases hl : l.all (fun i => decide (0 ≤ i) && decide (i < (V : ℤ))) = true
      · simp [lookupAll, embeddingLookup, if_pos ha, ih, h1, hl,
          except_bind_ok]
      · simp [lookupAll, embeddingLookup, if_pos ha, ih, h1, hl,
          except_bind_ok, except_bind_error]
    · have h1 : (decide (0 ≤ a) && decide (a < (V : ℤ))) = false := by
        rcases not_and_or.1 ha with h | h <;> simp [h]
      simp [lookupAll, embeddingLookup, if_neg ha, h1, except_bind_error]

/-- Claim C9: `forward_i` (and identically `forward_o`) on an index list
whose entries all lie in `[0, vocab_size)` returns exactly the
corresponding rows of the input (resp. output) table — one
`embedding_size`-row per index, same leading length — and otherwise (any
index `< 0` or `≥ vocab_size`) returns the index-out-of-range error, never
a clamped result. -/
theorem forward_lookup_contract (m : Item2Vec) (data : List ℤ) :
    m.forward_i data =
      (if data.all (fun i => decide (0 ≤ i) && decide (i < (m.vocab_size : ℤ))) then
        .ok (data.map (fun i => (List.range m.embedding_size).map (m.ivectors i.toNat)))
      else .error "index out of range in self") ∧
    m.forward_o data =
      (if data.all (fun i => decide (0 ≤ i) && decide (i < (m.vocab_size : ℤ))) then
        .ok (data.map (fun i => (List.range m.embedding_size).map (m.ovectors i.toNat)))
      else .error "index out of range in self") :=
  ⟨lookupAll_contract m.vocab_size m.embedding_size m.ivectors data,
   lookupAll_contract m.vocab_size m.embedding_size m.ovectors data⟩

/-- The weight matrix `Item2Vec.__init__` installs into both embedding
tables (lines 31-32):
`t.cat([t.zeros(1, E), FT(V - 1, E).uniform_(-0.5/E, 0.5/E)])` — a zero
row at index 0 followed by the `V - 1` random rows `draws`.  The
`padding_idx` argument of `__init__` (line 25) is not consulted when this
replacement weight is built. -/
def Item2Vec.initWeight (vocabSize embeddingSize paddingIdx : ℕ)
    (draws : ℕ → ℕ → ℚ) : ℕ → ℕ → ℚ :=
  fun r c => if r = 0 then 0 else draws (r - 1) c

/-- Claim C5 fails on the code: with `vocab_size = 3`,
`embedding_size = 2`, `padding_idx = 1` and every uniform draw equal to
`1/1000` (inside the legal range `[-0.5/2, 0.5/2]`), the installed weight
zeroes row 0 — not the row at `pad_idx = 1`, which keeps its nonzero
uniform draws.  The hardcoded `t.zeros(1, E)` row ignores `padding_idx`. -/
theorem item2vec_pad_row_not_zeroed :
    Item2Vec.initWeight 3 2 1 (fun _ _ => 1/1000) 1 0 = 1/1000 ∧
    Item2Vec.initWeight 3 2 1 (fun _ _ => 1/1000) 1 0 ≠ 0 ∧
    Item2Vec.initWeight 3 2 1 (fun _ _ => 1/1000) 1 1 = 1/1000 ∧
    Item2Vec.initWeight 3 2 1 (fun _ _ => 1/1000) 0 0 = 0 ∧
    Item2Vec.initWeight 3 2 1 (fun _ _ => 1/1000) 0 1 = 0 ∧
    (-(1/2/2) : ℚ) ≤ 1/1000 ∧ (1/1000 : ℚ) ≤ 1/2/2 := by
  refine ⟨rfl, by norm_num [Item2Vec.initWeight], rfl, rfl, rfl,
    by norm_num, by norm_num⟩

/-- `.long()` on a float: truncation toward zero. -/
noncomputable def floatToLong (x : ℝ) : ℤ := if 0 ≤ x then ⌊x⌋ else -⌊-x⌋

/-- Distribution of a single entry of
`FT(B, C*n_negs).uniform_(0, vocab_size - 1).long()` (i2v_model.py line
71): the probability that truncating a uniform continuous draw on
`[0, vocab_size - 1]` yields the integer `k`, as the normalised Lebesgue
measure of the preimage. -/
noncomputable def uniformLongPMF (vocabSize k : ℕ) : ENNReal :=
  MeasureTheory.volume
      {x : ℝ | x ∈ Set.Icc (0 : ℝ) ((vocabSize : ℝ) - 1) ∧
        floatToLong x = (k : ℤ)} /
    MeasureTheory.volume (Set.Icc (0 : ℝ) ((vocabSize : ℝ) - 1))

/-- Claim C3 fails on the code: the "uniform" fallback draws a continuous
uniform float on `[0, vocab_size - 1]` and truncates it, so at
`vocab_size = 3` index `2 = vocab_size - 1` is drawn with probability `0`
(its preimage is the single point `2`), and index `0` with probability
`1/2` — not the claimed equal probability `1/3` for every index. -/
theorem uniform_long_sampler_pmf :
    uniformLongPMF 3 2 = 0 ∧ uniformLongPMF 3 0 = 1 / 2 ∧
    uniformLongPMF 3 2 ≠ 1 / 3 ∧ uniformLongPMF 3 0 ≠ 1 / 3 := by
  have hs2 : {x : ℝ | x ∈ Set.Icc (0 : ℝ) (((3 : ℕ) : ℝ) - 1) ∧
      floatToLong x = ((2 : ℕ) : ℤ)} = {(2 : ℝ)} := by
    ext x
    simp only [Set.mem_setOf_eq, Set.mem_Icc, Set.mem_singleton_iff,
      floatToLong]
    constructor
    · rintro ⟨⟨h0, h2⟩, hf⟩
      rw [if_pos h0] at hf
      have hfl : ((2 : ℤ) : ℝ) ≤ x := by
        have hle := Int.floor_le x
        rw [hf] at hle
        exact_mod_cast hle
      push_cast at hfl h2 ⊢
      linarith
    · rintro rfl
      refine ⟨⟨by norm_num, by norm_num⟩, ?_⟩
      rw [if_pos (by norm_num : (0 : ℝ) ≤ 2)]
      rw [Int.floor_eq_iff]
      push_cast
      norm_num
  have hs0 : {x : ℝ | x ∈ Set.Icc (0 : ℝ) (((3 : ℕ) : ℝ) - 1) ∧
      floatToLong x = ((0 : ℕ) : ℤ)} = Set.Ico (0 : ℝ) 1 := by
    ext x
    simp only [Set.mem_setOf_eq, Set.mem_Icc, Set.mem_Ico, floatToLong]
    constructor
    · rintro ⟨⟨h0, h2⟩, hf⟩
      rw [if_pos h0] at hf
      rw [Int.floor_eq_iff] at hf
      push_cast at hf
      exact ⟨h0, by linarith [hf.2]⟩
    · rintro ⟨h0, h1⟩
      refine ⟨⟨h0, by push_cast; linarith⟩, ?_⟩
      rw [if_pos h0]
      rw [Int.floor_eq_iff]
      push_cast
      exact ⟨h0, by linarith⟩
  have hv2 : uniformLongPMF 3 2 = 0 := by
    simp only [uniformLongPMF, hs2]
    simp [Real.volume_singleton, ENNReal.zero_div]
  have hv0 : uniformLongPMF 3 0 = 1 / 2 := by
    simp only [uniformLongPMF, hs0]
    rw [Real.volume_Ico, Real.volume_Icc]
    norm_num
  have hne03 : (0 : ENNReal) ≠ 1 / 3 := by
    intro h
    have h3 := congrArg ENNReal.toReal h
    rw [ENNReal.toReal_div] at h3
    norm_num at h3
  have hne23 : (1 : ENNReal) / 2 ≠ 1 / 3 := by
    intro h
    have h3 := congrArg ENNReal.toReal h
    rw [ENNReal.toReal_div, ENNReal.toReal_div] at h3
    norm_num at h3
  exact ⟨hv2, hv0, by rw [hv2]; exact hne03, by rw [hv0]; exact hne23⟩
